import Mathlib

/-!
Shallow embedding of the filesystem source of this repository:
`sources/standard/filesystem/__init__.py`, `sources/standard/filesystem/helpers.py`,
and the format extractors of `sources/standard_pipeline.py`.

Python strings are modelled as `List Char`, bytes as `List Nat`, dictionaries as
ordered association lists, generators as the lists of their yielded items, and a
raised exception as an `Except.error`.  External collaborators (the fsspec
client's `glob`, the remote byte store behind `read_bytes`, `mimetypes` and the
`MTIME_DISPATCH` table) are parameters.
-/

/-- A Python runtime value, restricted to the types stored in the file
dictionaries: `None`, `str`, `bytes` and `int`.  Python `==` between values of
distinct types among these is `False`, which the derived decidable equality
reproduces. -/
inductive PyVal where
  | pyNone : PyVal
  | pyStr (s : List Char) : PyVal
  | pyBytes (b : List Nat) : PyVal
  | pyInt (n : Int) : PyVal
  deriving DecidableEq

/-- The entries of a Python dict with string keys, in insertion order. -/
abbrev PyEntries := List (List Char × PyVal)

/-- Python `d[k]`: the value stored under key `k`, if the key is present. -/
def dictGet (d : PyEntries) (k : List Char) : Option PyVal :=
  (d.find? (fun e => e.1 == k)).map (fun e => e.2)

/-- Python `v in d` on a dict compares `v` with the keys: it is true iff `v`
equals (`==`) one of the string keys of `d`. -/
def dictHasVal (d : PyEntries) (v : PyVal) : Bool :=
  d.any (fun e => v == PyVal.pyStr e.1)

/-- Python `d[k] = v`: replace the value under `k` in place, or append a new
entry when the key is absent. -/
def dictSet (d : PyEntries) (k : List Char) (v : PyVal) : PyEntries :=
  if d.any (fun e => e.1 == k) then
    d.map (fun e => if e.1 == k then (k, v) else e)
  else d ++ [(k, v)]

/-- The Python exceptions this source can raise. -/
inductive PyExc where
  | keyError (k : List Char)
  | valueError (msg : List Char)
  deriving DecidableEq

/-- Opaque filesystem credentials; the source passes them through unexamined. -/
structure FileSystemCredentials where
  id : Nat
  deriving DecidableEq

/-- The fsspec client returned by `client_from_credentials(bucket_url,
credentials)`: `filesystem(bucket_url, credentials)` bundles the url with the
credentials. -/
structure AbstractFileSystem where
  url : PyVal
  cred : FileSystemCredentials
  deriving DecidableEq

/-- The state of the remote store behind any fsspec client: the bytes served
for each file url.  `read_bytes` on a client consults it. -/
structure RemoteStore where
  readBytes : PyVal → List Nat

/-- The `FileItem` TypedDict yielded by `get_files` (six fixed keys). -/
structure FileItem where
  file_name : List Char
  file_url : List Char
  mime_type : PyVal
  modification_date : Int
  file_content : PyVal
  size_in_bytes : Int
  deriving DecidableEq

/-- The dict entries of a `FileItem`, in construction order. -/
def fileItemEntries (fi : FileItem) : PyEntries :=
  [("file_name".toList, .pyStr fi.file_name),
   ("file_url".toList, .pyStr fi.file_url),
   ("mime_type".toList, fi.mime_type),
   ("modification_date".toList, .pyInt fi.modification_date),
   ("file_content".toList, fi.file_content),
   ("size_in_bytes".toList, .pyInt fi.size_in_bytes)]

/-- `FileSystemDict`: the file dict plus the `credentials` attribute
(`__init__` stores the credentials and copies the mapping into the dict). -/
structure FileSystemDict where
  entries : PyEntries
  credentials : Option FileSystemCredentials
  deriving DecidableEq

/-- The message of the `ValueError` raised when no credentials are configured. -/
def noCredsMsg : List Char := "No credentials provided for the filesystem.".toList

/-- The `filesystem` property: raises `ValueError` when `self.credentials` is
falsy, else returns `client_from_credentials(self["file_url"],
self.credentials)`. -/
def FileSystemDict.filesystem (d : FileSystemDict) :
    Except PyExc AbstractFileSystem :=
  match d.credentials with
  | none => .error (.valueError noCredsMsg)
  | some c =>
    match dictGet d.entries "file_url".toList with
    | none => .error (.keyError "file_url".toList)
    | some u => .ok ⟨u, c⟩

/-- What `open` can return: `io.TextIOWrapper(BytesIO(self["file_content"]))`
(the cached branch; the text-decoding options are abstracted away) or the fsspec
file from `self.filesystem.open(self["file_url"])`. -/
inductive OpenedFile where
  | textWrapper (buf : PyVal)
  | fsspecFile (client : AbstractFileSystem) (url : PyVal)
  deriving DecidableEq

/-- `FileSystemDict.open` (Lean name `openFile`).  Faithful to the source: the
guard on line 53 is `self["file_content"] in self` — the *value* stored under
`"file_content"` is looked up (a `KeyError` when the key is missing) and then
tested for membership among the dict *keys*.  The second component records the
urls opened on the filesystem client. -/
def FileSystemDict.openFile (d : FileSystemDict) :
    Except PyExc OpenedFile × List PyVal :=
  match dictGet d.entries "file_content".toList with
  | none => (.error (.keyError "file_content".toList), [])
  | some v =>
    if dictHasVal d.entries v then
      (.ok (.textWrapper v), [])
    else
      match d.filesystem with
      | .error e => (.error e, [])
      | .ok client =>
        match dictGet d.entries "file_url".toList with
        | none => (.error (.keyError "file_url".toList), [])
        | some u => (.ok (.fsspecFile client u), [u])

/-- `FileSystemDict.read_bytes`: returns `self["file_content"]` when the key
`"file_content"` is in the dict, otherwise
`self.filesystem.read_bytes(self["file_url"])`.  The second component records
the urls read from the filesystem client. -/
def FileSystemDict.read_bytes (store : RemoteStore) (d : FileSystemDict) :
    Except PyExc PyVal × List PyVal :=
  if dictHasVal d.entries (.pyStr "file_content".toList) then
    match dictGet d.entries "file_content".toList with
    | some v => (.ok v, [])
    | none => (.error (.keyError "file_content".toList), [])
  else
    match d.filesystem with
    | .error e => (.error e, [])
    | .ok _client =>
      match dictGet d.entries "file_url".toList with
      | none => (.error (.keyError "file_url".toList), [])
      | some u => (.ok (.pyBytes (store.readBytes u)), [u])

/-- Python `s.lstrip("/")`: drop every leading `'/'`. -/
def lstripSlash : List Char → List Char
  | '/' :: rest => lstripSlash rest
  | s => s

/-- Whether `pat` occurs as a contiguous sublist of `s` (Python `pat in s` on
strings). -/
def occursIn (pat : List Char) : List Char → Bool
  | [] => pat.isEmpty
  | c :: rest => pat.isPrefixOf (c :: rest) || occursIn pat rest

/-- The scanning loop of Python `s.replace(pat, repl)`: all non-overlapping
occurrences, scanned left to right.  The fuel argument only discharges
termination; `replaceAll` passes `s.length`, which a run never exhausts. -/
def replaceAllGo (pat repl : List Char) : Nat → List Char → List Char
  | _, [] => []
  | 0, s => s
  | fuel + 1, c :: rest =>
    if pat.isPrefixOf (c :: rest) && !pat.isEmpty then
      repl ++ replaceAllGo pat repl fuel ((c :: rest).drop pat.length)
    else
      c :: replaceAllGo pat repl fuel rest

/-- Python `s.replace(pat, repl)` for nonempty `pat`. -/
def replaceAll (pat repl s : List Char) : List Char :=
  replaceAllGo pat repl s.length s

/-- The spec's wording of the name computation: the joined root *prefix*
stripped from the absolute match. -/
def stripRoot (root s : List Char) : List Char :=
  if root.isPrefixOf s then s.drop root.length else s

/-- The file name as the claim describes it: root prefix stripped, leading
separators removed. -/
def specFileName (root s : List Char) : List Char :=
  lstripSlash (stripRoot root s)

/-- `posixpath.join(a, b)` for two components: `b` if it is absolute, otherwise
`a` and `b` glued with exactly one `/` (none added after an empty or
`/`-terminated `a`). -/
def posixJoin (a b : List Char) : List Char :=
  if b.head? = some '/' then b
  else if a.isEmpty || a.getLast? = some '/' then a ++ b
  else a ++ '/' :: b

/-- Split `s` at the first occurrence of `sep`: the parts before and after. -/
def splitOnFirst (sep : List Char) : List Char → Option (List Char × List Char)
  | [] => if sep.isEmpty then some ([], []) else none
  | c :: rest =>
    if sep.isPrefixOf (c :: rest) && !sep.isEmpty then
      some ([], (c :: rest).drop sep.length)
    else
      match splitOnFirst sep rest with
      | some (pre, post) => some (c :: pre, post)
      | none => none

/-- The components of `urllib.parse.urlparse` that `get_files` uses. -/
structure UrlParts where
  scheme : List Char
  netloc : List Char
  path : List Char
  deriving DecidableEq

/-- Models `urllib.parse.urlparse` on the bucket-url shapes this source
handles: `scheme://netloc/path`, `scheme:///path`, `scheme://netloc`, or a
plain path with no `://` marker (scheme and netloc empty). -/
def urlparse (url : List Char) : UrlParts :=
  match splitOnFirst "://".toList url with
  | none => ⟨[], [], url⟩
  | some (scheme, rest) =>
    match splitOnFirst "/".toList rest with
    | none => ⟨scheme, rest, []⟩
    | some (netloc, p) => ⟨scheme, netloc, '/' :: p⟩

/-- Split a path or glob pattern on `/` into segments (Python `s.split("/")`). -/
def splitSlash : List Char → List (List Char)
  | [] => [[]]
  | c :: rest =>
    if c = '/' then [] :: splitSlash rest
    else
      match splitSlash rest with
      | [] => [[c]]
      | g :: gs => (c :: g) :: gs

/-- fsspec glob matching on `/`-split segments, restricted to the pattern forms
the claims exercise: a literal segment matches itself and `*` matches exactly
one segment (fsspec translates a single `*` to a regular expression that does
not cross `/`). -/
def globSegMatch : List (List Char) → List (List Char) → Bool
  | [], segs => segs.isEmpty
  | _ :: _, [] => false
  | p :: ps, s :: rest => (p == "*".toList || p == s) && globSegMatch ps rest

/-- The `type` and `size` fields of one fsspec `glob(..., detail=True)` entry;
the protocol-specific modification-time data is abstracted behind the
`MTIME_DISPATCH` parameter below. -/
structure GlobMd where
  mdType : List Char
  size : Int
  deriving DecidableEq

/-- `bucket_url_parsed.scheme or "file"`. -/
def protocolOf (bucket_url : List Char) : List Char :=
  if (urlparse bucket_url).scheme.isEmpty then "file".toList
  else (urlparse bucket_url).scheme

/-- `posixpath.join(bucket_url_parsed.netloc,
bucket_url_parsed.path.lstrip("/"))`. -/
def bucketUrlStr (bucket_url : List Char) : List Char :=
  posixJoin (urlparse bucket_url).netloc (lstripSlash (urlparse bucket_url).path)

/-- The url handed to `fs_client.glob`: the glob joined to the bucket string,
re-anchored at `/` when the bucket url uses `file:///` notation. -/
def globPatternOf (bucket_url file_glob : List Char) : List Char :=
  let filterUrl := posixJoin (bucketUrlStr bucket_url) file_glob
  if "file:///".toList.isPrefixOf bucket_url then posixJoin "/".toList filterUrl
  else filterUrl

/-- The `FileItem` built for one glob entry (the loop body of `get_files`):
`file_name` is the match with every occurrence of the bucket string replaced by
the empty string (Python `str.replace`) and leading `/` stripped; `file_url` is
the protocol glued to the match; `file_content` is initialized to `None`. -/
def mkFileItem (protocol bucketStr : List Char) (guessMime : List Char → PyVal)
    (mtimeOf : List Char → GlobMd → Int) (e : List Char × GlobMd) : FileItem :=
  { file_name := lstripSlash (replaceAll bucketStr [] e.1)
  , file_url := protocol ++ "://".toList ++ e.1
  , mime_type := guessMime e.1
  , modification_date := mtimeOf protocol e.2
  , file_content := .pyNone
  , size_in_bytes := e.2.size }

/-- `get_files(fs_client, bucket_url, file_glob)`: glob with the joined
pattern, skip entries whose type is not `"file"`, and yield one `FileItem` per
remaining match, in glob order. -/
def get_files (glob : List Char → List (List Char × GlobMd))
    (guessMime : List Char → PyVal) (mtimeOf : List Char → GlobMd → Int)
    (bucket_url file_glob : List Char) : List FileItem :=
  ((glob (globPatternOf bucket_url file_glob)).filter
      (fun e => e.2.mdType == "file".toList)).map
    (mkFileItem (protocolOf bucket_url) (bucketUrlStr bucket_url) guessMime mtimeOf)

/-- Lines 114-115 of the resource: `if not filename_filter: filename_filter =
"*"` (`None` and the empty string are falsy). -/
def effectiveFilter : Option (List Char) → List Char
  | none => "*".toList
  | some f => if f.isEmpty then "*".toList else f

/-- The handle the loop of `filesystem_resource` builds for one enumerated
file: the `FileSystemDict` over the item's entries, with `file_content`
overwritten by the result of `read_bytes()` — which is the stored
`file_content` itself, the key being always present — when `extract_content`
is set. -/
def wrapOne (credentials : Option FileSystemCredentials)
    (extract_content : Bool) (fi : FileItem) : FileSystemDict :=
  if extract_content then
    ⟨dictSet (fileItemEntries fi) "file_content".toList fi.file_content,
      credentials⟩
  else ⟨fileItemEntries fi, credentials⟩

/-- The generator loop of `filesystem_resource` (lines 117-129): build the
handle, eagerly assign `file_dict["file_content"] = file_dict.read_bytes()`
when `extract_content` is set, append the handle to the pending chunk, and
yield the chunk when `len(file_dict) >= chunksize` — the length of the *dict*
(its key count), exactly as the source has it.  A trailing non-empty chunk is
yielded once. -/
def fsLoop (store : RemoteStore) (credentials : Option FileSystemCredentials)
    (chunksize : Int) (extract_content : Bool) :
    List FileItem → List FileSystemDict →
      Except PyExc (List (List FileSystemDict))
  | [], chunk => .ok (if chunk.isEmpty then [] else [chunk])
  | fi :: rest, chunk =>
    let d0 : FileSystemDict := ⟨fileItemEntries fi, credentials⟩
    let dRes : Except PyExc FileSystemDict :=
      if extract_content then
        match (FileSystemDict.read_bytes store d0).1 with
        | .ok v => .ok ⟨dictSet d0.entries "file_content".toList v, credentials⟩
        | .error e => .error e
      else .ok d0
    match dRes with
    | .error e => .error e
    | .ok d =>
      let chunk2 := chunk ++ [d]
      if chunksize ≤ (d.entries.length : Int) then
        match fsLoop store credentials chunksize extract_content rest [] with
        | .ok bs => .ok (chunk2 :: bs)
        | .error e => .error e
      else
        fsLoop store credentials chunksize extract_content rest chunk2

/-- `filesystem_resource(bucket_url, credentials, filename_filter, chunksize,
extract_content)`: default the filter, enumerate with `get_files`, and run the
chunking loop.  The yielded batches are collected into a list; a raised
exception is an `Except.error`. -/
def filesystem_resource (store : RemoteStore)
    (glob : List Char → List (List Char × GlobMd))
    (guessMime : List Char → PyVal) (mtimeOf : List Char → GlobMd → Int)
    (bucket_url : List Char) (credentials : Option FileSystemCredentials)
    (filename_filter : Option (List Char)) (chunksize : Int)
    (extract_content : Bool) : Except PyExc (List (List FileSystemDict)) :=
  fsLoop store credentials chunksize extract_content
    (get_files glob guessMime mtimeOf bucket_url
      (effectiveFilter filename_filter)) []

/-- Cut a list into consecutive pieces of `size` elements (the last piece may
be shorter).  The fuel argument only discharges termination; `chunkList`
passes `l.length`, which a run never exhausts.  A `size` of `0` still consumes
one element per step; every call site uses a positive `size`. -/
def chunkListGo {α : Type} (size : Nat) : Nat → List α → List (List α)
  | _, [] => []
  | 0, l => [l]
  | fuel + 1, x :: xs =>
    (x :: xs).take (max size 1) :: chunkListGo size fuel ((x :: xs).drop (max size 1))

/-- Consecutive pieces of `size` elements of `l`, in order. -/
def chunkList {α : Type} (size : Nat) (l : List α) : List (List α) :=
  chunkListGo size l.length l

/-- One decoded row of the met csv, after `parse_dates` and the pendulum
normalization; normalized dates are modelled by integers carrying the datetime
order. -/
structure MetRow where
  code : List Char
  date : Int
  temperature : Int
  deriving DecidableEq

/-- `extract_met_csv`: for each file of the batch, read the csv in chunks of
`chunksize` rows (pandas `chunksize`), keep in each chunk exactly the rows with
`date` strictly greater than the incremental's `last_value`
(`df = df[df["date"] > last_value]`), and yield each chunk's surviving records.
Each file of the batch is given by its decoded rows. -/
def extract_met_csv (last_value : Int) (chunksize : Nat)
    (items : List (List MetRow)) : List (List MetRow) :=
  items.flatMap (fun rows =>
    (chunkList chunksize rows).map
      (List.filter (fun r => decide (last_value < r.date))))

/-- `ParquetFile.iter_batches(batch_size)` as pyarrow documents it: record
batches of at most `batch_size` rows (`batch_size` is the "maximum number of
records to yield per batch"), in row order, never spanning a row-group
boundary. -/
def iter_batches {α : Type} (batch_size : Nat)
    (rowGroups : List (List α)) : List (List α) :=
  rowGroups.flatMap (chunkList batch_size)

/-- `read_parquet`: open each handle of the batch as a parquet file and yield
`rows.to_pylist()` for every record batch of
`iter_batches(batch_size=chunksize)`.  A file is given by its row groups;
records are abstract. -/
def read_parquet {α : Type} (chunksize : Nat)
    (files : List (List (List α))) : List (List α) :=
  files.flatMap (iter_batches chunksize)

/-- A remote store serving the bytes `[1, 2, 3]` for every url. -/
def exStore : RemoteStore := ⟨fun _ => [1, 2, 3]⟩

/-- Mime guessing stub: no recognized extension. -/
def exGuess : List Char → PyVal := fun _ => .pyNone

/-- Modification-time dispatch stub. -/
def exMtime : List Char → GlobMd → Int := fun _ _ => 0

/-- A glob collaborator: one csv file directly under the root `data`. -/
def exGlob1 : List Char → List (List Char × GlobMd) := fun p =>
  if p = "data/*".toList then [("data/a.csv".toList, ⟨"file".toList, 3⟩)]
  else []

/-- A glob collaborator: five files directly under the root `data`. -/
def exGlob5 : List Char → List (List Char × GlobMd) := fun p =>
  if p = "data/*".toList then
    [("data/a.csv".toList, ⟨"file".toList, 1⟩),
     ("data/b.csv".toList, ⟨"file".toList, 2⟩),
     ("data/c.csv".toList, ⟨"file".toList, 3⟩),
     ("data/d.csv".toList, ⟨"file".toList, 4⟩),
     ("data/e.csv".toList, ⟨"file".toList, 5⟩)]
  else []

/-- A glob collaborator whose single match repeats the root string `data`
inside the path. -/
def exGlobNested : List Char → List (List Char × GlobMd) := fun p =>
  if p = "data/**/*".toList then
    [("data/data/x.csv".toList, ⟨"file".toList, 7⟩)]
  else []

/-- An enumerator-shaped file item with `file_content` still `None`. -/
def exItemNoContent : FileItem :=
  { file_name := "a.csv".toList
  , file_url := "file://data/a.csv".toList
  , mime_type := .pyNone
  , modification_date := 0
  , file_content := .pyNone
  , size_in_bytes := 3 }

/-- An enumerator-shaped file item whose content buffer was populated. -/
def exItemWithContent : FileItem :=
  { exItemNoContent with file_content := .pyBytes [104, 105], size_in_bytes := 2 }

/-! Helper lemmas. -/

/-- `read_bytes` on any handle over a full six-key file item returns the stored
`file_content` without touching the store: the `"file_content"` key is present,
so the cached branch is taken. -/
theorem read_bytes_fileItemEntries (store : RemoteStore) (fi : FileItem)
    (cred : Option FileSystemCredentials) :
    FileSystemDict.read_bytes store ⟨fileItemEntries fi, cred⟩ =
      (.ok fi.file_content, []) := rfl

theorem chunkListGo_nil {α : Type} (size fuel : Nat) :
    chunkListGo size fuel [] = ([] : List (List α)) := by
  cases fuel <;> rfl

theorem chunkListGo_cons {α : Type} (size fuel : Nat) (x : α) (xs : List α) :
    chunkListGo size (fuel + 1) (x :: xs) =
      (x :: xs).take (max size 1) ::
        chunkListGo size fuel ((x :: xs).drop (max size 1)) := rfl

theorem chunkListGo_flatten {α : Type} (size : Nat) :
    ∀ (fuel : Nat) (l : List α), l.length ≤ fuel →
      (chunkListGo size fuel l).flatten = l := by
  intro fuel
  induction fuel with
  | zero =>
    intro l hl
    cases l with
    | nil => rfl
    | cons x xs => simp at hl
  | succ n ih =>
    intro l hl
    cases l with
    | nil => rfl
    | cons x xs =>
      have hmax : 1 ≤ max size 1 := Nat.le_max_right size 1
      rw [chunkListGo_cons, List.flatten_cons]
      rw [ih (((x :: xs).drop (max size 1)))
        (by simp only [List.length_drop, List.length_cons] at hl ⊢; omega)]
      exact List.take_append_drop _ _

theorem chunkList_flatten {α : Type} (size : Nat) (l : List α) :
    (chunkList size l).flatten = l :=
  chunkListGo_flatten size l.length l (Nat.le_refl _)

theorem flatten_map_filter {α : Type} (p : α → Bool) (xs : List (List α)) :
    (xs.map (List.filter p)).flatten = xs.flatten.filter p := by
  induction xs with
  | nil => rfl
  | cons a t ih =>
    simp only [List.map_cons, List.flatten_cons, List.filter_append, ih]

theorem chunkList_eq_singleton {α : Type} (size : Nat) (g : List α)
    (hne : g ≠ []) (hle : g.length ≤ size) : chunkList size g = [g] := by
  cases g with
  | nil => exact absurd rfl hne
  | cons x xs =>
    have h1 : (x :: xs).length ≤ max size 1 := le_trans hle (Nat.le_max_left _ _)
    show chunkListGo size (x :: xs).length (x :: xs) = [x :: xs]
    rw [List.length_cons, chunkListGo_cons, List.take_of_length_le h1,
      List.drop_eq_nil_of_le h1, chunkListGo_nil]

theorem flatMap_chunkList_eq_self {α : Type} (k : Nat) (f : List (List α))
    (h : ∀ g ∈ f, g ≠ [] ∧ g.length ≤ k) : f.flatMap (chunkList k) = f := by
  induction f with
  | nil => rfl
  | cons g t ih =>
    rw [List.flatMap_cons, chunkList_eq_singleton k g (h g (by simp)).1
      (h g (by simp)).2, ih (fun g' hg' => h g' (by simp [hg']))]
    rfl

theorem replaceAllGo_of_not_occurs (pat repl : List Char) :
    ∀ (fuel : Nat) (s : List Char), s.length ≤ fuel →
      occursIn pat s = false → replaceAllGo pat repl fuel s = s := by
  intro fuel
  induction fuel with
  | zero =>
    intro s hl _
    cases s with
    | nil => rfl
    | cons c r => simp at hl
  | succ n ih =>
    intro s hl ho
    cases s with
    | nil => rfl
    | cons c r =>
      simp only [occursIn, Bool.or_eq_false_iff] at ho
      simp only [replaceAllGo, ho.1, Bool.false_and, Bool.false_eq_true, if_false]
      rw [ih r (by simp only [List.length_cons] at hl; omega) ho.2]

theorem replaceAllGo_cons (pat repl : List Char) (fuel : Nat) (c : Char)
    (rest : List Char) :
    replaceAllGo pat repl (fuel + 1) (c :: rest) =
      if pat.isPrefixOf (c :: rest) && !pat.isEmpty then
        repl ++ replaceAllGo pat repl fuel ((c :: rest).drop pat.length)
      else
        c :: replaceAllGo pat repl fuel rest := rfl

theorem replaceAll_root (pat repl rest : List Char) (hp : pat ≠ [])
    (ho : occursIn pat rest = false) :
    replaceAll pat repl (pat ++ rest) = repl ++ rest := by
  cases pat with
  | nil => exact absurd rfl hp
  | cons p pt =>
    show replaceAllGo (p :: pt) repl ((p :: pt) ++ rest).length ((p :: pt) ++ rest)
      = repl ++ rest
    have hpre : (p :: pt).isPrefixOf ((p :: pt) ++ rest) = true :=
      List.isPrefixOf_iff_prefix.mpr (List.prefix_append _ _)
    rw [List.cons_append] at hpre
    rw [List.cons_append, List.length_cons, replaceAllGo_cons, hpre]
    simp only [List.isEmpty_cons, Bool.not_false, Bool.and_self, if_true]
    rw [List.length_cons, List.drop_succ_cons, List.drop_left]
    rw [replaceAllGo_of_not_occurs (p :: pt) repl (pt ++ rest).length rest
      (by rw [List.length_append]; omega) ho]

theorem extract_met_csv_flatten (lv : Int) (k : Nat)
    (items : List (List MetRow)) :
    (extract_met_csv lv k items).flatten =
      items.flatten.filter (fun r => decide (lv < r.date)) := by
  induction items with
  | nil => rfl
  | cons rows t ih =>
    simp only [extract_met_csv, List.flatMap_cons, List.flatten_append,
      List.flatten_cons, List.filter_append] at ih ⊢
    rw [flatten_map_filter, chunkList_flatten, ih]

theorem fsLoop_ok (store : RemoteStore) (cred : Option FileSystemCredentials)
    (chunksize : Int) (ec : Bool) :
    ∀ (files : List FileItem) (acc : List FileSystemDict),
      ∃ bs, fsLoop store cred chunksize ec files acc = .ok bs ∧
        bs.flatten = acc ++ files.map (wrapOne cred ec) := by
  intro files
  induction files with
  | nil =>
    intro acc
    refine ⟨if acc.isEmpty then [] else [acc], rfl, ?_⟩
    cases acc <;> simp
  | cons fi rest ih =>
    intro acc
    have step : fsLoop store cred chunksize ec (fi :: rest) acc =
        (if chunksize ≤ (((wrapOne cred ec fi).entries).length : Int) then
          match fsLoop store cred chunksize ec rest [] with
          | .ok bs => .ok ((acc ++ [wrapOne cred ec fi]) :: bs)
          | .error e => .error e
        else fsLoop store cred chunksize ec rest (acc ++ [wrapOne cred ec fi])) := by
      cases ec <;> rfl
    rw [step]
    by_cases h : chunksize ≤ (((wrapOne cred ec fi).entries).length : Int)
    · rw [if_pos h]
      rcases ih [] with ⟨bs0, h0, hf0⟩
      rw [h0]
      refine ⟨(acc ++ [wrapOne cred ec fi]) :: bs0, rfl, ?_⟩
      simp only [List.flatten_cons, hf0, List.nil_append, List.map_cons,
        List.append_assoc, List.cons_append, List.singleton_append]
    · rw [if_neg h]
      rcases ih (acc ++ [wrapOne cred ec fi]) with ⟨bs1, h1, hf1⟩
      refine ⟨bs1, h1, ?_⟩
      rw [hf1]
      simp

/-! Claim theorems. -/

/-- C1: refuted by the code.  For an enumerator-shaped handle whose
`file_content` buffer holds the bytes `[104, 105]`, `open()` raises the
credentials `ValueError` when credentials are absent — the guard
`self["file_content"] in self` compares the cached value with the dict keys and
never selects the cached branch — and with credentials present it opens the url
on the filesystem client instead of wrapping the cached bytes in an in-memory
stream.  `read_all()` alone does return the cached bytes without touching the
client. -/
theorem c1_open_ignores_cached_content :
    FileSystemDict.openFile ⟨fileItemEntries exItemWithContent, none⟩ =
      (.error (.valueError noCredsMsg), []) ∧
    FileSystemDict.openFile ⟨fileItemEntries exItemWithContent, some ⟨0⟩⟩ =
      (.ok (.fsspecFile ⟨.pyStr "file://data/a.csv".toList, ⟨0⟩⟩
          (.pyStr "file://data/a.csv".toList)),
        [.pyStr "file://data/a.csv".toList]) ∧
    FileSystemDict.read_bytes exStore ⟨fileItemEntries exItemWithContent, none⟩ =
      (.ok (.pyBytes [104, 105]), []) :=
  ⟨rfl, rfl, rfl⟩

/-- C2: refuted by the code.  For a handle without cached content —
`file_content` is `None`, as the enumerator creates it — `read_bytes()` returns
the stored `None` without raising when credentials are absent and without
reading from the client when they are present, because the `"file_content"` key
is always in the dict.  Only `open()` behaves as the claim states. -/
theorem c2_read_all_never_raises_without_content :
    FileSystemDict.read_bytes exStore ⟨fileItemEntries exItemNoContent, none⟩ =
      (.ok .pyNone, []) ∧
    FileSystemDict.read_bytes exStore ⟨fileItemEntries exItemNoContent, some ⟨0⟩⟩ =
      (.ok .pyNone, []) ∧
    FileSystemDict.openFile ⟨fileItemEntries exItemNoContent, none⟩ =
      (.error (.valueError noCredsMsg), []) :=
  ⟨rfl, rfl, rfl⟩

/-- C3: refuted by the code.  Five enumerated files with `chunksize = 2` are
yielded as five singleton batches, not as batches of sizes 2, 2, 1: the guard
`len(file_dict) >= chunksize` measures the six-key file dict, not the
accumulated chunk, so it fires after every file. -/
theorem c3_chunk_guard_counts_dict_keys :
    Except.map (List.map List.length)
        (filesystem_resource exStore exGlob5 exGuess exMtime "data".toList
          none none 2 false) = .ok [1, 1, 1, 1, 1] := rfl

/-- C4: refuted by the code.  With `extract_content = true` and a store serving
`[1, 2, 3]` for every url, the single yielded handle still carries
`file_content = None`: the eager `read_bytes()` returns the pre-initialized
`None` (the `"file_content"` key is always present), so the file's bytes are
never fetched from the client. -/
theorem c4_eager_extract_stores_none :
    filesystem_resource exStore exGlob1 exGuess exMtime "data".toList
        (some ⟨0⟩) none 10 true =
      .ok [[⟨fileItemEntries exItemNoContent, some ⟨0⟩⟩]] ∧
    dictGet (fileItemEntries exItemNoContent) "file_content".toList =
      some .pyNone ∧
    exStore.readBytes (.pyStr exItemNoContent.file_url) = [1, 2, 3] ∧
    PyVal.pyNone ≠ PyVal.pyBytes [1, 2, 3] :=
  ⟨rfl, rfl, rfl, by decide⟩

/-- C5 counterexample: a columnar file with a single row group of 25 rows, read
with `chunksize = 10`, yields three record batches, not one batch equal to the
row group: `iter_batches(batch_size=chunksize)` caps every batch at `chunksize`
rows. -/
theorem c5_counterexample :
    (read_parquet 10 [[List.range 25]]).length = 3 ∧
    read_parquet 10 [[List.range 25]] ≠ [List.range 25] :=
  ⟨rfl, by decide⟩

/-- C5 (amended): the columnar extractor yields record batches of at most
`chunksize` rows, cut at row-group boundaries; whenever every row group is
non-empty and no larger than `chunksize`, each row group comes out as exactly
one record batch equal to that row group, in order. -/
theorem c5_one_batch_per_small_row_group {α : Type} (chunksize : Nat)
    (files : List (List (List α)))
    (h : ∀ f ∈ files, ∀ g ∈ f, g ≠ [] ∧ g.length ≤ chunksize) :
    read_parquet chunksize files = files.flatten := by
  induction files with
  | nil => rfl
  | cons f t ih =>
    have h1 : iter_batches chunksize f = f :=
      flatMap_chunkList_eq_self chunksize f (h f (by simp))
    have h2 : read_parquet chunksize t = t.flatten :=
      ih (fun f' hf' => h f' (by simp [hf']))
    calc read_parquet chunksize (f :: t)
        = iter_batches chunksize f ++ read_parquet chunksize t := by
          simp only [read_parquet, List.flatMap_cons]
      _ = f ++ t.flatten := by rw [h1, h2]
      _ = (f :: t).flatten := by rw [List.flatten_cons]

/-- C5 witness: three row groups of 1, 2 and 3 rows with `chunksize = 10` come
out as exactly three record batches, one per row group, each equal to it. -/
theorem c5_witness :
    read_parquet 10 [[[0], [1, 2], [3, 4, 5]]] = [[0], [1, 2], [3, 4, 5]] := by
  exact c5_one_batch_per_small_row_group 10
    ([[[0], [1, 2], [3, 4, 5]]] : List (List (List Nat))) (by decide)

/-- C6 counterexample: with no filename filter, the resource enumerates with
the pattern `data/*` (the default filter is `*`, not `**/*`): it matches a file
directly under the root but not a file at depth two, so files are not
enumerated at every depth. -/
theorem c6_counterexample :
    effectiveFilter none = "*".toList ∧
    globPatternOf "data".toList (effectiveFilter none) = "data/*".toList ∧
    globSegMatch (splitSlash (globPatternOf "data".toList (effectiveFilter none)))
      (splitSlash "data/f.txt".toList) = true ∧
    globSegMatch (splitSlash (globPatternOf "data".toList (effectiveFilter none)))
      (splitSlash "data/sub/f.txt".toList) = false :=
  ⟨rfl, rfl, rfl, rfl⟩

/-- C6 (amended): with no filename filter, the pattern used is `*` joined to
the root: it matches exactly the paths one segment below the root — depth one,
not recursive. -/
theorem c6_default_filter_matches_depth_one (segs : List (List Char)) :
    globSegMatch (splitSlash (globPatternOf "data".toList (effectiveFilter none)))
      ("data".toList :: segs) = decide (segs.length = 1) := by
  rcases segs with _ | ⟨s, _ | ⟨t, r⟩⟩ <;> rfl

/-- C7: the incremental extractor keeps exactly the rows whose `date` field is
strictly greater than the high-water mark, in their original order: the
concatenation of its record batches is the order-preserving filter of the
decoded rows; in particular, rows dated 2023-01-01, 2023-06-01 and 2024-01-01
against the mark 2023-01-01 leave exactly the last two rows, in order. -/
theorem c7_incremental_filter (last_value : Int) (chunksize : Nat)
    (items : List (List MetRow)) :
    (extract_met_csv last_value chunksize items).flatten =
      items.flatten.filter (fun r => decide (last_value < r.date)) ∧
    extract_met_csv 20230101 15
        [[⟨"a".toList, 20230101, 5⟩, ⟨"b".toList, 20230601, 6⟩,
          ⟨"c".toList, 20240101, 7⟩]] =
      [[⟨"b".toList, 20230601, 6⟩, ⟨"c".toList, 20240101, 7⟩]] :=
  ⟨extract_met_csv_flatten last_value chunksize items, by decide⟩

/-- C8 counterexample: with root `data`, the match `data/data/x.csv` is
reported with name `x.csv` — `str.replace` removes *every* occurrence of the
root string — while stripping only the root prefix (the claim's wording) gives
`data/x.csv`. -/
theorem c8_counterexample :
    (get_files exGlobNested exGuess exMtime "data".toList "**/*".toList).map
        FileItem.file_name = ["x.csv".toList] ∧
    specFileName (bucketUrlStr "data".toList) "data/data/x.csv".toList =
      "data/x.csv".toList ∧
    "x.csv".toList ≠ "data/x.csv".toList :=
  ⟨rfl, rfl, by decide⟩

/-- C8 (amended): for every glob entry of type `file` whose path starts with
the joined root string and does not repeat it afterwards, the enumerated item
is reported with the claim's name — the root prefix stripped and leading
separators removed — and with `size_in_bytes` equal to the metadata size; in
general the code removes every occurrence of the root string, not only the
prefix. -/
theorem c8_name_size_of_unrepeated_root
    (glob : List Char → List (List Char × GlobMd))
    (guessMime : List Char → PyVal) (mtimeOf : List Char → GlobMd → Int)
    (bucket_url file_glob : List Char) (e : List Char × GlobMd)
    (he : e ∈ glob (globPatternOf bucket_url file_glob))
    (hty : e.2.mdType = "file".toList)
    (hroot : bucketUrlStr bucket_url ≠ [])
    (hpre : (bucketUrlStr bucket_url).isPrefixOf e.1 = true)
    (hocc : occursIn (bucketUrlStr bucket_url)
        (e.1.drop (bucketUrlStr bucket_url).length) = false) :
    mkFileItem (protocolOf bucket_url) (bucketUrlStr bucket_url) guessMime
        mtimeOf e ∈ get_files glob guessMime mtimeOf bucket_url file_glob ∧
    (mkFileItem (protocolOf bucket_url) (bucketUrlStr bucket_url) guessMime
        mtimeOf e).file_name = specFileName (bucketUrlStr bucket_url) e.1 ∧
    (mkFileItem (protocolOf bucket_url) (bucketUrlStr bucket_url) guessMime
        mtimeOf e).size_in_bytes = e.2.size := by
  obtain ⟨rest, hr⟩ := List.isPrefixOf_iff_prefix.mp hpre
  refine ⟨?_, ?_, rfl⟩
  · unfold get_files
    apply List.mem_map_of_mem
    rw [List.mem_filter]
    refine ⟨he, ?_⟩
    rw [hty]
    rfl
  · have hdrop : e.1.drop (bucketUrlStr bucket_url).length = rest := by
      rw [← hr, List.drop_left]
    rw [hdrop] at hocc
    show lstripSlash (replaceAll (bucketUrlStr bucket_url) [] e.1)
      = specFileName (bucketUrlStr bucket_url) e.1
    unfold specFileName stripRoot
    rw [if_pos hpre, hdrop, ← hr, replaceAll_root _ _ _ hroot hocc]
    rfl

/-- C8 witness: for the root `data` and the match `data/a.csv` (the root not
repeated inside the path), the enumerated item is reported with name `a.csv` —
prefix stripped, separator stripped — and size 3. -/
theorem c8_witness :
    mkFileItem (protocolOf "data".toList) (bucketUrlStr "data".toList) exGuess
        exMtime ("data/a.csv".toList, ⟨"file".toList, 3⟩) ∈
      get_files exGlob1 exGuess exMtime "data".toList "*".toList ∧
    (mkFileItem (protocolOf "data".toList) (bucketUrlStr "data".toList) exGuess
        exMtime ("data/a.csv".toList, ⟨"file".toList, 3⟩)).file_name =
      specFileName (bucketUrlStr "data".toList) "data/a.csv".toList ∧
    (mkFileItem (protocolOf "data".toList) (bucketUrlStr "data".toList) exGuess
        exMtime ("data/a.csv".toList, ⟨"file".toList, 3⟩)).size_in_bytes = 3 :=
  c8_name_size_of_unrepeated_root exGlob1 exGuess exMtime "data".toList
    "*".toList ("data/a.csv".toList, ⟨"file".toList, 3⟩) (by decide) (by decide)
    (by decide) (by decide) (by decide)

/-- C9: for every store, glob collaborator, credentials, filter, chunk size and
extraction flag, the resource yields without error, and the concatenation of
its batches is exactly the enumerated files in discovery order, each wrapped
once as a handle: nothing is reordered, dropped, duplicated or deduplicated. -/
theorem c9_concat_of_batches_is_enumeration (store : RemoteStore)
    (glob : List Char → List (List Char × GlobMd))
    (guessMime : List Char → PyVal) (mtimeOf : List Char → GlobMd → Int)
    (bucket_url : List Char) (credentials : Option FileSystemCredentials)
    (filename_filter : Option (List Char)) (chunksize : Int)
    (extract_content : Bool) :
    ∃ bs, filesystem_resource store glob guessMime mtimeOf bucket_url
        credentials filename_filter chunksize extract_content = .ok bs ∧
      bs.flatten = (get_files glob guessMime mtimeOf bucket_url
          (effectiveFilter filename_filter)).map
        (wrapOne credentials extract_content) := by
  rcases fsLoop_ok store credentials chunksize extract_content
    (get_files glob guessMime mtimeOf bucket_url (effectiveFilter filename_filter))
    [] with ⟨bs, h1, h2⟩
  exact ⟨bs, h1, by rw [h2]; rfl⟩

/-- C10: every file record produced by the enumerator carries the
`file_content` key (initialized to `None`), so `read_all()` on a handle over it
returns the stored `None` — without contacting the filesystem client and
without raising — whatever the credentials. -/
theorem c10_read_all_on_enumerated_handles
    (glob : List Char → List (List Char × GlobMd))
    (guessMime : List Char → PyVal) (mtimeOf : List Char → GlobMd → Int)
    (bucket_url file_glob : List Char) (fi : FileItem)
    (hfi : fi ∈ get_files glob guessMime mtimeOf bucket_url file_glob)
    (store : RemoteStore) (credentials : Option FileSystemCredentials) :
    dictHasVal (fileItemEntries fi) (.pyStr "file_content".toList) = true ∧
    FileSystemDict.read_bytes store ⟨fileItemEntries fi, credentials⟩ =
      (.ok .pyNone, []) := by
  have hc : fi.file_content = .pyNone := by
    unfold get_files at hfi
    rcases List.mem_map.mp hfi with ⟨e, _, he⟩
    rw [← he]
    rfl
  refine ⟨rfl, ?_⟩
  rw [read_bytes_fileItemEntries, hc]

/-- C10 witness: the single item enumerated from the root `data` carries the
`file_content` key, and `read_bytes()` on its credential-less handle returns
the stored `None` without touching the store. -/
theorem c10_witness :
    dictHasVal (fileItemEntries exItemNoContent)
      (.pyStr "file_content".toList) = true ∧
    FileSystemDict.read_bytes exStore ⟨fileItemEntries exItemNoContent, none⟩ =
      (.ok .pyNone, []) :=
  c10_read_all_on_enumerated_handles exGlob1 exGuess exMtime "data".toList
    "*".toList exItemNoContent (by decide) exStore none
